import Mathlib

/-!
# Tic-tac-toe (`src/main.c`): game logic and click handler

A shallow embedding of the game-state part of `main.c`:

* the constants `WIDTH`, `HEIGHT`, `N`, `CELL_WIDTH`, `CELL_HEIGHT`;
* the enums `Player`, `State` and the struct `Game`;
* `check_player_won`, `count_cells`, `game_over_condition`;
* the `SDL_MOUSEBUTTONDOWN` branch of the event loop in `main`
  (`mouse_button_down`), as a function of the game and of the pointer
  position carried by the event.

The board `Player board[N * N]` is a function on `Fin (N * N)`.  C `int`s are
`Int` (pointer coordinates, which SDL delivers as signed 32-bit values) or
`Nat` (loop counters and match counts, which never become negative and stay
far below `2^31`).  An array access whose index is outside `0 .. N*N-1` has
no defined behaviour in C; the handler returns `none` there.
-/

namespace TicTacToe

/-! ## Constants (lines 6-12) -/

/-- The macro `WIDTH`: `#define WIDTH 800`. -/
abbrev WIDTH : Nat := 800

/-- The macro `HEIGHT`: `#define HEIGHT 600`. -/
abbrev HEIGHT : Nat := 600

/-- The macro `N`: `#define N 3`. -/
abbrev N : Nat := 3

/-- The macro `CELL_WIDTH`: `#define CELL_WIDTH (WIDTH / N)`, integer division. -/
abbrev CELL_WIDTH : Nat := WIDTH / N

/-- The macro `CELL_HEIGHT`: `#define CELL_HEIGHT (HEIGHT / N)`, integer division. -/
abbrev CELL_HEIGHT : Nat := HEIGHT / N

/-! ## Data model (lines 21-42) -/

/-- The enum `Player`: `EMPTY = 0`, `PLAYER_X = 1`, `PLAYER_O = 2`. -/
inductive Player where
  | EMPTY
  | PLAYER_X
  | PLAYER_O
  deriving DecidableEq, Repr

/-- The enum `State`: `RUNNING`, `PLAYER_X_WON`, `PLAYER_O_WON`, `TIE`, `QUIT`. -/
inductive State where
  | RUNNING
  | PLAYER_X_WON
  | PLAYER_O_WON
  | TIE
  | QUIT
  deriving DecidableEq, Repr

open Player State

/-- The array `Player board[N * N]`: exactly `N * N` cells, row-major. -/
abbrev Board := Fin (N * N) → Player

/-- The struct `Game`: `Player board[N * N]; Player player; State state;`. -/
structure Game where
  board : Board
  player : Player
  state : State

/-- Read `board[i]` for a loop index `i`.  Every index the loops of
`check_player_won`, `count_cells` and the reset loop produce is below `N * N`
(see `loop_indices_in_bounds`), so the value chosen outside the array is never
observed. -/
def Board.cell (b : Board) (i : Nat) : Player :=
  if h : i < N * N then b ⟨i, h⟩ else EMPTY

/-- Write `board[i] = v` for a loop index `i` (below `N * N` in every use). -/
def Board.store (b : Board) (i : Nat) (v : Player) : Board :=
  if h : i < N * N then Function.update b ⟨i, h⟩ v else b

/-- The array slot a C `int` index designates, `none` when the index is
outside `0 .. N*N-1` (an access there is undefined behaviour). -/
def board_index (i : Int) : Option (Fin (N * N)) :=
  if h : 0 ≤ i ∧ i < ((N * N : Nat) : Int) then some ⟨i.toNat, by omega⟩ else none

/-! ## `check_player_won` (lines 138-174) -/

/-- The inner `for (int j = 0; j < N; ++j)` loop (lines 148-155): starting
from the counters `(row_count, column_count)`, count the cells of row `i` and
of column `i` that equal `player`. -/
def count_row_column (b : Board) (player : Player) (i : Nat) (init : Nat × Nat) : Nat × Nat :=
  (List.range N).foldl
    (fun (c : Nat × Nat) (j : Nat) =>
      (if b.cell (i * N + j) = player then c.1 + 1 else c.1,
       if b.cell (j * N + i) = player then c.2 + 1 else c.2))
    init

/-- The outer `for (int i = 0; i < N; ++i)` loop (lines 146-171) over the
remaining values of `i`, with the current values of `row_count`,
`column_count`, `diag1_count`, `diag2_count`; when the loop is exhausted the
function returns `diag1_count >= N || diag2_count >= N` (line 173). -/
def check_player_won_loop (b : Board) (player : Player) :
    List Nat → Nat → Nat → Nat → Nat → Bool
  | [], _, _, diag1_count, diag2_count =>
      decide (diag1_count ≥ N) || decide (diag2_count ≥ N)
  | i :: rest, row_count, column_count, diag1_count, diag2_count =>
      let c := count_row_column b player i (row_count, column_count)
      if c.1 ≥ N ∨ c.2 ≥ N then true
      else
        let diag1 := if b.cell (i * N + i) = player then diag1_count + 1 else diag1_count
        let diag2 := if b.cell (i * N + N - i - 1) = player then diag2_count + 1 else diag2_count
        check_player_won_loop b player rest 0 0 diag1 diag2

/-- The function `bool check_player_won(Game *game, Player player)`. -/
def check_player_won (game : Game) (player : Player) : Bool :=
  check_player_won_loop game.board player (List.range N) 0 0 0 0

/-! ## `count_cells` (lines 176-187) and `game_over_condition` (lines 189-203) -/

/-- The function `int count_cells(const Player board[N * N], Player cell)`. -/
def count_cells (board : Board) (cell : Player) : Nat :=
  (List.range (N * N)).foldl
    (fun (count : Nat) (i : Nat) => if board.cell i = cell then count + 1 else count) 0

/-- The function `void game_over_condition(Game *game)`. -/
def game_over_condition (game : Game) : Game :=
  if check_player_won game PLAYER_X then { game with state := PLAYER_X_WON }
  else if check_player_won game PLAYER_O then { game with state := PLAYER_O_WON }
  else if count_cells game.board EMPTY = 0 then { game with state := TIE }
  else game

/-! ## The click handler (lines 231-235 and 246-281) -/

/-- The initial `Game` value of `main` (lines 231-235); the cells without an
initialiser are zero, which is `EMPTY`. -/
def initial_game : Game :=
  { board := fun _ => EMPTY, player := PLAYER_X, state := RUNNING }

/-- The `switch (game.player)` of lines 256-266. -/
def switch_player (game : Game) : Game :=
  match game.player with
  | PLAYER_X => { game with player := PLAYER_O }
  | PLAYER_O => { game with player := PLAYER_X }
  | EMPTY => game

/-- Lines 255-266: the assignment `game.board[row * N + column] = game.player`
(with `k` the slot `row * N + column`) followed by the `switch`. -/
def place_mark (game : Game) (k : Fin (N * N)) : Game :=
  switch_player { game with board := Function.update game.board k game.player }

/-- Lines 255-268: the body of `if (game.board[row * N + column] == EMPTY)`. -/
def accept_move (game : Game) (k : Fin (N * N)) : Game :=
  game_over_condition (place_mark game k)

/-- Lines 273-278: the reset loop and the two assignments after it. -/
def reset_game (game : Game) : Game :=
  { board := (List.range (N * N)).foldl (fun (b : Board) (i : Nat) => b.store i EMPTY) game.board,
    player := PLAYER_X,
    state := RUNNING }

/-- Line 250: `int row = event.button.y / CELL_HEIGHT;`.  The operator `/` on
C `int`s truncates towards zero (`Int.tdiv`). -/
def click_row (y : Int) : Int := Int.tdiv y (CELL_HEIGHT : Nat)

/-- Line 251: `int column = event.button.x / CELL_WIDTH;`. -/
def click_column (x : Int) : Int := Int.tdiv x (CELL_WIDTH : Nat)

/-- The index expression `row * N + column` of lines 253 and 255. -/
def cell_index (row column : Int) : Int := row * (N : Nat) + column

/-- The `case SDL_MOUSEBUTTONDOWN:` branch (lines 246-281) for an event whose
pointer position is `(x, y)`.  For 32-bit `x` and `y` the value of
`row * N + column` stays far inside the range of `int`, so no wrap-around is
modelled. -/
def mouse_button_down (game : Game) (x y : Int) : Option Game :=
  if game.state = RUNNING then
    let row := click_row y
    let column := click_column x
    match board_index (cell_index row column) with
    | none => none
    | some k =>
        if game.board k = EMPTY then some (accept_move game k)
        else some game
  else
    some (reset_game game)

/-- The inner `while (SDL_PollEvent(&event))` loop restricted to mouse-button
events: the handler applied to the pointer positions in order. -/
def mouse_clicks (game : Game) : List (Int × Int) → Option Game
  | [] => some game
  | (x, y) :: rest => (mouse_button_down game x y).bind (fun g => mouse_clicks g rest)

/-! ## Vocabulary of the specification -/

/-- The value of `board[i]` for a C `int` index, `none` outside the array. -/
def Board.read (b : Board) (i : Int) : Option Player := (board_index i).map b

/-- The click at `(x, y)` is mapped to a cell of the grid: `0 <= row < N` and
`0 <= column < N`. -/
abbrev in_grid (x y : Int) : Prop :=
  0 ≤ click_row y ∧ click_row y < (N : Nat) ∧ 0 ≤ click_column x ∧ click_column x < (N : Nat)

/-- The three states in which the game is over: somebody won, or a tie. -/
abbrev game_over (s : State) : Prop :=
  s = PLAYER_X_WON ∨ s = PLAYER_O_WON ∨ s = TIE

/-- The click at `(x, y)` is an accepted move: the state is `RUNNING`, the
click is mapped to a cell of the grid and that cell is `EMPTY`. -/
abbrev accepted (game : Game) (x y : Int) : Prop :=
  game.state = RUNNING ∧ in_grid x y ∧
    game.board.read (cell_index (click_row y) (click_column x)) = some EMPTY

/-- A sequence of accepted moves: the handler applied to each click in order,
`none` as soon as a click is not an accepted move. -/
def accepted_moves (game : Game) : List (Int × Int) → Option Game
  | [] => some game
  | (x, y) :: rest =>
      if accepted game x y then (mouse_button_down game x y).bind (fun g => accepted_moves g rest)
      else none

/-- The cell `(row, column)` of the board, row-major: `board[row * N + column]`. -/
def Board.at_cell (b : Board) (row column : Fin N) : Player :=
  b ⟨(row : Nat) * N + (column : Nat), by
    have h1 := row.isLt
    have h2 := column.isLt
    simp only [N] at *
    omega⟩

/-- The uniform line check of the specification: some row, some column, the
main diagonal or the anti-diagonal consists entirely of `p`. -/
def owns_line (b : Board) (p : Player) : Prop :=
  (∃ i, i < N ∧ ∀ j, j < N → b.cell (i * N + j) = p) ∨
  (∃ i, i < N ∧ ∀ j, j < N → b.cell (j * N + i) = p) ∨
  (∀ i, i < N → b.cell (i * N + i) = p) ∨
  (∀ i, i < N → b.cell (i * N + (N - 1 - i)) = p)

instance owns_line_decidable (b : Board) (p : Player) : Decidable (owns_line b p) :=
  inferInstanceAs (Decidable (_ ∨ _ ∨ _ ∨ _))

/-- The state a win of `p` is recorded as. -/
def won_state (p : Player) (otherwise : State) : State :=
  match p with
  | PLAYER_X => PLAYER_X_WON
  | PLAYER_O => PLAYER_O_WON
  | EMPTY => otherwise

/-- The simplification the specification proposes for `game_over_condition`:
only the win of `mover`, the player who just placed a mark, is evaluated. -/
def game_over_condition_mover (game : Game) (mover : Player) : Game :=
  if check_player_won game mover then { game with state := won_state mover game.state }
  else if count_cells game.board EMPTY = 0 then { game with state := TIE }
  else game

/-- The states reachable from the initial one by mouse clicks that are mapped
to cells of the grid (accepted moves, rejected moves and resets). -/
inductive Reachable : Game → Prop where
  | init : Reachable initial_game
  | click (g g1 : Game) (x y : Int) :
      Reachable g → in_grid x y → mouse_button_down g x y = some g1 → Reachable g1

/-- The observable content of a game: the cells in row-major order, the
current player and the state. -/
def Game.view (g : Game) : List Player × Player × State :=
  (List.ofFn g.board, g.player, g.state)

/-- The game with the given cells (row-major), current player and state. -/
def game_of (c0 c1 c2 c3 c4 c5 c6 c7 c8 : Player) (player : Player) (state : State) : Game :=
  { board := ![c0, c1, c2, c3, c4, c5, c6, c7, c8], player := player, state := state }

/-- The pointer position of the top-left pixel of cell `(row, column)`. -/
def cell_click (row column : Nat) : Int × Int :=
  (((column * CELL_WIDTH : Nat) : Int), ((row * CELL_HEIGHT : Nat) : Int))

/-- The five moves (0,0), (1,1), (0,1), (1,0), (0,2) of the example scenario. -/
def x_wins_clicks : List (Int × Int) :=
  [cell_click 0 0, cell_click 1 1, cell_click 0 1, cell_click 1 0, cell_click 0 2]

/-- The game after the five moves of `x_wins_clicks`. -/
def x_won_game : Game :=
  game_of PLAYER_X PLAYER_X PLAYER_X PLAYER_O PLAYER_O EMPTY EMPTY EMPTY EMPTY
    PLAYER_O PLAYER_X_WON

/-- Nine moves that fill the board without a line: X plays (0,1), (1,0),
(1,2), (2,0), (2,2) and O plays (0,0), (0,2), (1,1), (2,1), alternately. -/
def tie_clicks : List (Int × Int) :=
  [cell_click 0 1, cell_click 0 0, cell_click 1 0, cell_click 0 2, cell_click 1 2,
   cell_click 1 1, cell_click 2 0, cell_click 2 1, cell_click 2 2]

/-! ## Invariants used in the proofs -/

/-- What holds after `k` accepted moves from the initial state: `PLAYER_X` has
placed `(k + 1) / 2` marks, `PLAYER_O` has placed `k / 2`, the other cells are
`EMPTY`, and the current player is `PLAYER_X` exactly when `k` is even. -/
def move_invariant (k : Nat) (g : Game) : Prop :=
  count_cells g.board PLAYER_X = (k + 1) / 2 ∧ count_cells g.board PLAYER_O = k / 2 ∧
    count_cells g.board EMPTY + k = N * N ∧
    g.player = (if k % 2 = 0 then PLAYER_X else PLAYER_O)

/-- What holds in every reachable state: the current player is a mark, no
line is owned while the state is `RUNNING`, and never both marks own a line. -/
def reach_invariant (g : Game) : Prop :=
  (g.player = PLAYER_X ∨ g.player = PLAYER_O) ∧
    (g.state = RUNNING → ¬ owns_line g.board PLAYER_X ∧ ¬ owns_line g.board PLAYER_O) ∧
    ¬ (owns_line g.board PLAYER_X ∧ owns_line g.board PLAYER_O)

/-- The game after the four moves (0,0), (1,1), (0,1), (1,0): the board is
X,X,-,O,O,-,-,-,- and `PLAYER_X` is to move. -/
def before_win_game : Game :=
  accept_move (accept_move (accept_move (accept_move initial_game 0) 4) 1) 3

/-! ## Basic facts -/

/-- Every index the loops of `check_player_won` compute is inside the array. -/
theorem loop_indices_in_bounds (i j : Nat) (hi : i < N) (hj : j < N) :
    i * N + j < N * N ∧ j * N + i < N * N ∧ i * N + i < N * N ∧ i * N + N - i - 1 < N * N := by
  simp only [N] at *
  omega

theorem Game.view_inj {g h : Game} (e : g.view = h.view) : g = h := by
  cases g with
  | mk gb gp gs =>
    cases h with
    | mk hb hp hs =>
      simp only [Game.view, Prod.mk.injEq] at e
      obtain ⟨e1, e2, e3⟩ := e
      have e4 : gb = hb := List.ofFn_injective e1
      subst e4 e2 e3
      rfl

theorem eq_some_of_view {o : Option Game} {g : Game} (e : o.map Game.view = some g.view) :
    o = some g := by
  cases o with
  | none => simp at e
  | some h =>
    simp only [Option.map_some', Option.some.injEq] at e
    rw [Game.view_inj e]

theorem board_index_of_bounds (i : Int) (h0 : 0 ≤ i) (h1 : i < ((N * N : Nat) : Int)) :
    ∃ k : Fin (N * N), board_index i = some k ∧ ((k : Nat) : Int) = i := by
  refine ⟨⟨i.toNat, by omega⟩, ?_, ?_⟩
  · rw [board_index, dif_pos ⟨h0, h1⟩]
  · simp only []
    omega

theorem board_index_some {i : Int} {k : Fin (N * N)} (h : board_index i = some k) :
    ((k : Nat) : Int) = i := by
  unfold board_index at h
  split at h
  · next hb =>
    simp only [Option.some.injEq] at h
    subst h
    simp only []
    omega
  · simp at h

theorem cell_index_bounds (x y : Int) (h : in_grid x y) :
    0 ≤ cell_index (click_row y) (click_column x) ∧
      cell_index (click_row y) (click_column x) < ((N * N : Nat) : Int) := by
  obtain ⟨h1, h2, h3, h4⟩ := h
  simp only [cell_index, N, Nat.cast_ofNat] at *
  constructor <;> omega

theorem store_apply (b : Board) (i : Nat) (v : Player) (k : Fin (N * N)) :
    b.store i v k = if (k : Nat) = i then v else b k := by
  unfold Board.store
  split
  · next h =>
    by_cases hk : (k : Nat) = i
    · have hk2 : k = ⟨i, h⟩ := Fin.ext hk
      rw [if_pos hk, hk2, Function.update_same]
    · have hk2 : k ≠ ⟨i, h⟩ := fun e => hk (by rw [e])
      rw [if_neg hk, Function.update_noteq hk2]
  · next h =>
    have hk : (k : Nat) ≠ i := fun e => h (e ▸ k.isLt)
    simp [hk]

theorem foldl_store (l : List Nat) (b : Board) (k : Fin (N * N)) :
    l.foldl (fun (b : Board) (i : Nat) => b.store i EMPTY) b k =
      if (k : Nat) ∈ l then EMPTY else b k := by
  induction l generalizing b with
  | nil => simp
  | cons i l ih =>
    rw [List.foldl_cons, ih, store_apply]
    by_cases h1 : (k : Nat) ∈ l
    · simp [h1]
    · by_cases h2 : (k : Nat) = i
      · simp [h2]
      · simp [h1, h2]

theorem reset_board (b : Board) (k : Fin (N * N)) :
    (List.range (N * N)).foldl (fun (b : Board) (i : Nat) => b.store i EMPTY) b k = EMPTY := by
  rw [foldl_store, if_pos (List.mem_range.mpr k.isLt)]

theorem game_over_condition_board (g : Game) : (game_over_condition g).board = g.board := by
  unfold game_over_condition
  split_ifs <;> rfl

theorem game_over_condition_player (g : Game) : (game_over_condition g).player = g.player := by
  unfold game_over_condition
  split_ifs <;> rfl

theorem switch_player_board (g : Game) : (switch_player g).board = g.board := by
  unfold switch_player
  split <;> rfl

theorem switch_player_state (g : Game) : (switch_player g).state = g.state := by
  unfold switch_player
  split <;> rfl

theorem accept_move_board (g : Game) (k : Fin (N * N)) :
    (accept_move g k).board = Function.update g.board k g.player := by
  simp [accept_move, place_mark, game_over_condition_board, switch_player_board]

theorem accept_move_player (g : Game) (k : Fin (N * N)) :
    (accept_move g k).player = (switch_player g).player := by
  simp only [accept_move, place_mark, game_over_condition_player]
  unfold switch_player
  split <;> simp_all

theorem Board.cell_of_lt (b : Board) (i : Nat) (h : i < N * N) : b.cell i = b ⟨i, h⟩ := by
  rw [Board.cell, dif_pos h]

theorem read_eq_some {b : Board} {i : Int} {k : Fin (N * N)} (h : board_index i = some k) :
    b.read i = some (b k) := by
  rw [Board.read, h, Option.map_some']

/-! ## The counting scan of `check_player_won` and the uniform line check -/

theorem three_le_count (A B C : Prop) [Decidable A] [Decidable B] [Decidable C] :
    3 ≤ (if C then (if B then (if A then 0 + 1 else 0) + 1 else (if A then 0 + 1 else 0)) + 1
          else (if B then (if A then 0 + 1 else 0) + 1 else (if A then 0 + 1 else 0))) ↔
      A ∧ B ∧ C := by
  by_cases hA : A <;> by_cases hB : B <;> by_cases hC : C <;> simp [hA, hB, hC]

theorem count_row_column_fst (b : Board) (p : Player) (i : Nat) :
    N ≤ (count_row_column b p i (0, 0)).1 ↔ ∀ j, j < N → b.cell (i * N + j) = p := by
  simp only [count_row_column, N, List.range, List.range.loop, List.foldl, Nat.forall_lt_succ]
  rw [three_le_count]
  simp [and_assoc]

theorem count_row_column_snd (b : Board) (p : Player) (i : Nat) :
    N ≤ (count_row_column b p i (0, 0)).2 ↔ ∀ j, j < N → b.cell (j * N + i) = p := by
  simp only [count_row_column, N, List.range, List.range.loop, List.foldl, Nat.forall_lt_succ]
  rw [three_le_count]
  simp [and_assoc]

theorem ite_true_eq_true (c : Prop) [Decidable c] (e : Bool) :
    (if c then true else e) = true ↔ c ∨ e = true := by
  by_cases h : c <;> simp [h]

theorem scan_iff_owns_line (b : Board) (p : Player) :
    check_player_won_loop b p (List.range N) 0 0 0 0 = true ↔ owns_line b p := by
  have hr := count_row_column_fst b p
  have hc := count_row_column_snd b p
  simp only [List.range, List.range.loop, check_player_won_loop, ge_iff_le, hr, hc,
    ite_true_eq_true, Bool.or_eq_true, decide_eq_true_eq, three_le_count]
  simp only [owns_line, Nat.exists_lt_succ, N]
  generalize (∀ j < 3, b.cell (0 * 3 + j) = p) = R0
  generalize (∀ j < 3, b.cell (1 * 3 + j) = p) = R1
  generalize (∀ j < 3, b.cell (2 * 3 + j) = p) = R2
  generalize (∀ j < 3, b.cell (j * 3 + 0) = p) = C0
  generalize (∀ j < 3, b.cell (j * 3 + 1) = p) = C1
  generalize (∀ j < 3, b.cell (j * 3 + 2) = p) = C2
  simp only [Nat.forall_lt_succ]
  norm_num
  tauto

theorem at_cell_eq (b : Board) (i j : Nat) (hi : i < N) (hj : j < N) :
    b.at_cell ⟨i, hi⟩ ⟨j, hj⟩ = b.cell (i * N + j) := by
  rw [Board.at_cell, Board.cell, dif_pos]

theorem owns_line_iff_cells (b : Board) (p : Player) :
    owns_line b p ↔
      ((∃ i : Fin N, ∀ j : Fin N, b.at_cell i j = p) ∨
       (∃ i : Fin N, ∀ j : Fin N, b.at_cell j i = p) ∨
       (∀ i : Fin N, b.at_cell i i = p) ∨
       (∀ i : Fin N, b.at_cell i (Fin.rev i) = p)) := by
  unfold owns_line
  simp only [Fin.exists_iff, Fin.forall_iff, at_cell_eq, Fin.rev]
  constructor
  · rintro (⟨i, hi, h⟩ | ⟨i, hi, h⟩ | h | h)
    · exact Or.inl ⟨i, hi, h⟩
    · exact Or.inr (Or.inl ⟨i, hi, h⟩)
    · exact Or.inr (Or.inr (Or.inl h))
    · refine Or.inr (Or.inr (Or.inr (fun i hi => ?_)))
      have := h i hi
      rwa [show N - (i + 1) = N - 1 - i by omega]
  · rintro (⟨i, hi, h⟩ | ⟨i, hi, h⟩ | h | h)
    · exact Or.inl ⟨i, hi, h⟩
    · exact Or.inr (Or.inl ⟨i, hi, h⟩)
    · exact Or.inr (Or.inr (Or.inl h))
    · refine Or.inr (Or.inr (Or.inr (fun i hi => ?_)))
      have := h i hi
      rwa [show N - (i + 1) = N - 1 - i by omega] at this
/-- C9: for every board and every value `p` of `Player` (`EMPTY` included),
`check_player_won` returns true exactly when there is a row index `i` whose
`N` cells all equal `p`, or a column index `i` whose `N` cells all equal `p`,
or the `N` main-diagonal cells `(i, i)` all equal `p`, or the `N`
anti-diagonal cells `(i, N-1-i)` all equal `p`: the counting scan with its
early exit on rows and columns and its end-of-loop test on the diagonals
equals the uniform line check. -/
theorem check_player_won_iff_owns_line (game : Game) (p : Player) :
    check_player_won game p = true ↔
      ((∃ i : Fin N, ∀ j : Fin N, game.board.at_cell i j = p) ∨
       (∃ i : Fin N, ∀ j : Fin N, game.board.at_cell j i = p) ∨
       (∀ i : Fin N, game.board.at_cell i i = p) ∨
       (∀ i : Fin N, game.board.at_cell i (Fin.rev i) = p)) :=
  (scan_iff_owns_line game.board p).trans (owns_line_iff_cells game.board p)

/-! ## The mapping from the pointer position to a cell -/

theorem click_row_in_range (y : Int) (h0 : 0 ≤ y) (h1 : y < (HEIGHT : Nat)) :
    0 ≤ click_row y ∧ click_row y < (N : Nat) := by
  unfold click_row
  rw [Int.tdiv_eq_ediv h0 (by decide)]
  simp only [CELL_HEIGHT, HEIGHT, N, Nat.cast_ofNat] at *
  omega

theorem click_column_in_range_iff (x : Int) (h0 : 0 ≤ x) :
    (0 ≤ click_column x ∧ click_column x < (N : Nat)) ↔ x < 798 := by
  unfold click_column
  rw [Int.tdiv_eq_ediv h0 (by decide)]
  simp only [CELL_WIDTH, WIDTH, N, Nat.cast_ofNat] at *
  omega
/-- C2: the pointer position `(798, 599)` is inside the window, yet the click
is mapped to column 3, which is not below `N`; the index `row * N + column`
is 9, which is not below `N * N`, so `game.board[9]` is an access outside the
array.  At `(798, 0)` the index is 3, and the mark lands in cell `(1, 0)`. -/
theorem right_edge_click_outside_board :
    (0 : Int) ≤ 798 ∧ (798 : Int) < (WIDTH : Nat) ∧ (0 : Int) ≤ 599 ∧ (599 : Int) < (HEIGHT : Nat) ∧
    click_row 599 = 2 ∧ click_column 798 = 3 ∧ ¬ click_column 798 < (N : Nat) ∧
    cell_index (click_row 599) (click_column 798) = 9 ∧
    ¬ cell_index (click_row 599) (click_column 798) < ((N * N : Nat) : Int) ∧
    board_index (cell_index (click_row 599) (click_column 798)) = none ∧
    mouse_button_down initial_game 798 599 = none ∧
    (mouse_button_down initial_game 798 0).map Game.view =
      some ([EMPTY, EMPTY, EMPTY, PLAYER_X, EMPTY, EMPTY, EMPTY, EMPTY, EMPTY],
        PLAYER_O, RUNNING) := by
  refine ⟨by decide, by decide, by decide, by decide, by decide, by decide, by decide,
    by decide, by decide, by decide, rfl, by decide⟩

/-! ## Clicks that do not place a mark -/

theorem reset_game_eq (g : Game) : reset_game g = initial_game := by
  unfold reset_game initial_game
  congr 1
  funext k
  exact reset_board g.board k

theorem mouse_button_down_not_running (g : Game) (x y : Int) (h : g.state ≠ RUNNING) :
    mouse_button_down g x y = some initial_game := by
  rw [mouse_button_down, if_neg h, reset_game_eq]

theorem game_over_ne_running {s : State} (h : game_over s) : s ≠ RUNNING := by
  rcases h with h | h | h <;> rw [h] <;> decide

/-- C7: in every game whose state is `PLAYER_X_WON`, `PLAYER_O_WON` or `TIE`,
whatever its board and current player, a mouse click at any position resets
the game: afterwards all `N * N` cells are `EMPTY`, the current player is
`PLAYER_X` and the state is `RUNNING`. -/
theorem click_resets_finished_game (g : Game) (x y : Int) (h : game_over g.state) :
    ∃ g1, mouse_button_down g x y = some g1 ∧
      (∀ k : Fin (N * N), g1.board k = EMPTY) ∧ g1.player = PLAYER_X ∧ g1.state = RUNNING :=
  ⟨initial_game, mouse_button_down_not_running g x y (game_over_ne_running h),
    fun _ => rfl, rfl, rfl⟩

/-- C7, witness: the tied full board is reset by a click at `(400, 300)`. -/
theorem click_resets_finished_game_witness :
    game_over (game_of PLAYER_O PLAYER_X PLAYER_O PLAYER_X PLAYER_O PLAYER_X PLAYER_X PLAYER_O
        PLAYER_X PLAYER_O TIE).state ∧
    ∃ g1, mouse_button_down (game_of PLAYER_O PLAYER_X PLAYER_O PLAYER_X PLAYER_O PLAYER_X
        PLAYER_X PLAYER_O PLAYER_X PLAYER_O TIE) 400 300 = some g1 ∧
      (∀ k : Fin (N * N), g1.board k = EMPTY) ∧ g1.player = PLAYER_X ∧ g1.state = RUNNING :=
  ⟨by decide, click_resets_finished_game _ 400 300 (by decide)⟩

/-- C4: in every game with state `RUNNING`, a click mapped to a cell of the
grid that already holds `PLAYER_X` or `PLAYER_O` leaves the board, the current
player and the state unchanged. -/
theorem click_on_occupied_cell_ignored (g : Game) (x y : Int)
    (hs : g.state = RUNNING) (hg : in_grid x y)
    (ho : g.board.read (cell_index (click_row y) (click_column x)) = some PLAYER_X ∨
          g.board.read (cell_index (click_row y) (click_column x)) = some PLAYER_O) :
    mouse_button_down g x y = some g := by
  obtain ⟨h0, h1⟩ := cell_index_bounds x y hg
  obtain ⟨k, hk, _⟩ := board_index_of_bounds _ h0 h1
  rw [read_eq_some hk] at ho
  have hne : g.board k ≠ EMPTY := by
    rcases ho with ho | ho <;> simp only [Option.some.injEq] at ho <;> rw [ho] <;> decide
  simp only [mouse_button_down, hs, if_true, hk, if_neg hne]

/-- C4, witness: after X played (0,0), a second click on cell (0,0) changes
nothing. -/
theorem click_on_occupied_cell_ignored_witness :
    (game_of PLAYER_X EMPTY EMPTY EMPTY EMPTY EMPTY EMPTY EMPTY EMPTY PLAYER_O RUNNING).state
      = RUNNING ∧ in_grid 100 100 ∧
    mouse_button_down
      (game_of PLAYER_X EMPTY EMPTY EMPTY EMPTY EMPTY EMPTY EMPTY EMPTY PLAYER_O RUNNING) 100 100
      = some (game_of PLAYER_X EMPTY EMPTY EMPTY EMPTY EMPTY EMPTY EMPTY EMPTY PLAYER_O RUNNING) :=
  ⟨by decide, by decide,
    click_on_occupied_cell_ignored _ 100 100 (by decide) (by decide) (Or.inl (by decide))⟩

/-- C1, counterexample: the five moves (0,0), (1,1), (0,1), (1,0), (0,2) give
`PLAYER_X_WON` with the board X,X,X,O,O,-,-,-,-; the click at (2,2) that
follows is mapped to a cell of the grid and does not leave the game unchanged:
it empties the board, and sets the player to `PLAYER_X` and the state to
`RUNNING`. -/
theorem click_after_win_changes_board :
    mouse_clicks initial_game x_wins_clicks = some x_won_game ∧
    game_over x_won_game.state ∧
    in_grid (cell_click 2 2).1 (cell_click 2 2).2 ∧
    (mouse_button_down x_won_game (cell_click 2 2).1 (cell_click 2 2).2).map Game.view
      = some ([EMPTY, EMPTY, EMPTY, EMPTY, EMPTY, EMPTY, EMPTY, EMPTY, EMPTY],
          PLAYER_X, RUNNING) ∧
    mouse_button_down x_won_game (cell_click 2 2).1 (cell_click 2 2).2 ≠ some x_won_game := by
  refine ⟨eq_some_of_view (by decide), by decide, by decide, by decide, ?_⟩
  intro h
  have h2 := congrArg (Option.map Game.state) h
  revert h2
  decide

/-- C1 (amended): in every game whose state is `PLAYER_X_WON`, `PLAYER_O_WON`
or `TIE`, a click mapped to a cell of the grid places no mark (the clicked
cell is `EMPTY` afterwards, like every other cell); the click is not ignored
but resets the game: the current player becomes `PLAYER_X` and the state
becomes `RUNNING`, so the state differs from the one before the click. -/
theorem click_when_game_over (g : Game) (x y : Int)
    (h : game_over g.state) (hg : in_grid x y) :
    ∃ g1, mouse_button_down g x y = some g1 ∧
      g1.board.read (cell_index (click_row y) (click_column x)) = some EMPTY ∧
      (∀ k : Fin (N * N), g1.board k = EMPTY) ∧
      g1.player = PLAYER_X ∧ g1.state = RUNNING ∧ g1.state ≠ g.state := by
  obtain ⟨h0, h1⟩ := cell_index_bounds x y hg
  obtain ⟨k, hk, _⟩ := board_index_of_bounds _ h0 h1
  refine ⟨initial_game, mouse_button_down_not_running g x y (game_over_ne_running h),
    ?_, fun _ => rfl, rfl, rfl, ?_⟩
  · rw [read_eq_some hk]
    rfl
  · exact fun e => game_over_ne_running h e.symm

/-- C1, witness: the game after the five moves (0,0), (1,1), (0,1), (1,0),
(0,2) is in state `PLAYER_X_WON`, and the sixth click, at (2,2), resets it. -/
theorem click_when_game_over_witness :
    mouse_clicks initial_game x_wins_clicks = some x_won_game ∧
    game_over x_won_game.state ∧ in_grid (cell_click 2 2).1 (cell_click 2 2).2 ∧
    ∃ g1, mouse_button_down x_won_game (cell_click 2 2).1 (cell_click 2 2).2 = some g1 ∧
      g1.board.read (cell_index (click_row (cell_click 2 2).2) (click_column (cell_click 2 2).1))
        = some EMPTY ∧
      (∀ k : Fin (N * N), g1.board k = EMPTY) ∧
      g1.player = PLAYER_X ∧ g1.state = RUNNING ∧ g1.state ≠ x_won_game.state :=
  ⟨eq_some_of_view (by decide), by decide, by decide,
    click_when_game_over x_won_game _ _ (by decide) (by decide)⟩

/-! ## Counting cells -/

theorem foldl_count (b : Board) (c : Player) (l : List Nat) (n : Nat) :
    l.foldl (fun (count : Nat) (i : Nat) => if b.cell i = c then count + 1 else count) n =
      n + (l.map (fun i => if b.cell i = c then 1 else 0)).sum := by
  induction l generalizing n with
  | nil => simp
  | cons i l ih =>
    rw [List.foldl_cons, ih, List.map_cons, List.sum_cons]
    split_ifs <;> omega

theorem sum_map_range (f : Nat → Nat) (n : Nat) :
    ((List.range n).map f).sum = ∑ i in Finset.range n, f i := by
  induction n with
  | zero => simp
  | succ n ih => rw [List.range_succ, List.map_append, List.sum_append, ih, Finset.sum_range_succ]; simp

theorem count_cells_eq_sum (b : Board) (c : Player) :
    count_cells b c = ∑ k : Fin (N * N), (if b k = c then 1 else 0) := by
  rw [count_cells, foldl_count, Nat.zero_add, sum_map_range,
    ← Fin.sum_univ_eq_sum_range (fun i => if b.cell i = c then 1 else 0) (N * N)]
  refine Finset.sum_congr rfl (fun k _ => ?_)
  rw [Board.cell_of_lt b k k.isLt]

theorem count_cells_update (b : Board) (k : Fin (N * N)) (v c : Player) :
    count_cells (Function.update b k v) c + (if b k = c then 1 else 0) =
      count_cells b c + (if v = c then 1 else 0) := by
  rw [count_cells_eq_sum, count_cells_eq_sum,
    ← Finset.add_sum_erase Finset.univ _ (Finset.mem_univ k),
    ← Finset.add_sum_erase Finset.univ (fun j => if b j = c then 1 else 0) (Finset.mem_univ k)]
  have h : ∑ x in Finset.univ.erase k, (if Function.update b k v x = c then 1 else 0) =
      ∑ x in Finset.univ.erase k, (if b x = c then 1 else 0) := by
    refine Finset.sum_congr rfl (fun j hj => ?_)
    rw [Function.update_noteq (Finset.ne_of_mem_erase hj)]
  rw [h, Function.update_same]
  omega

theorem count_cells_eq_zero (b : Board) (c : Player) :
    count_cells b c = 0 ↔ ∀ k : Fin (N * N), b k ≠ c := by
  rw [count_cells_eq_sum, Finset.sum_eq_zero_iff]
  constructor
  · intro h k hk
    have := h k (Finset.mem_univ k)
    simp [hk] at this
  · intro h k _
    simp [h k]

/-! ## Accepted moves -/

theorem mouse_button_down_accepted (g : Game) (x y : Int) (h : accepted g x y) :
    ∃ k : Fin (N * N), board_index (cell_index (click_row y) (click_column x)) = some k ∧
      g.board k = EMPTY ∧ mouse_button_down g x y = some (accept_move g k) := by
  obtain ⟨hs, hg, he⟩ := h
  obtain ⟨h0, h1⟩ := cell_index_bounds x y hg
  obtain ⟨k, hk, _⟩ := board_index_of_bounds _ h0 h1
  rw [read_eq_some hk, Option.some.injEq] at he
  refine ⟨k, hk, he, ?_⟩
  simp only [mouse_button_down, hs, if_true, hk, he]

theorem won_iff_owns_line (g : Game) (p : Player) :
    check_player_won g p = true ↔ owns_line g.board p :=
  scan_iff_owns_line g.board p

theorem check_player_won_eq_false {g : Game} {p : Player} (h : ¬ owns_line g.board p) :
    check_player_won g p = false := by
  cases e : check_player_won g p with
  | false => rfl
  | true => exact absurd ((won_iff_owns_line g p).mp e) h

theorem game_over_condition_state (g : Game) (hs : g.state = RUNNING) :
    (game_over_condition g).state =
      if owns_line g.board PLAYER_X then PLAYER_X_WON
      else if owns_line g.board PLAYER_O then PLAYER_O_WON
      else if ∀ k : Fin (N * N), g.board k ≠ EMPTY then TIE
      else RUNNING := by
  unfold game_over_condition
  by_cases hx : owns_line g.board PLAYER_X
  · rw [if_pos ((won_iff_owns_line g PLAYER_X).mpr hx), if_pos hx]
  · rw [check_player_won_eq_false hx, if_neg hx]
    by_cases ho : owns_line g.board PLAYER_O
    · simp only [Bool.false_eq_true, if_false]
      rw [if_pos ((won_iff_owns_line g PLAYER_O).mpr ho), if_pos ho]
    · rw [check_player_won_eq_false ho, if_neg ho]
      simp only [Bool.false_eq_true, if_false]
      by_cases hz : ∀ k : Fin (N * N), g.board k ≠ EMPTY
      · rw [if_pos ((count_cells_eq_zero g.board EMPTY).mpr hz), if_pos hz]
      · rw [if_neg (fun e => hz ((count_cells_eq_zero g.board EMPTY).mp e)), if_neg hz, hs]

theorem place_mark_board (g : Game) (k : Fin (N * N)) :
    (place_mark g k).board = Function.update g.board k g.player := by
  rw [place_mark, switch_player_board]

theorem place_mark_state (g : Game) (k : Fin (N * N)) : (place_mark g k).state = g.state := by
  rw [place_mark, switch_player_state]

theorem accept_move_state (g : Game) (k : Fin (N * N)) (hs : g.state = RUNNING) :
    (accept_move g k).state =
      if owns_line (accept_move g k).board PLAYER_X then PLAYER_X_WON
      else if owns_line (accept_move g k).board PLAYER_O then PLAYER_O_WON
      else if ∀ j : Fin (N * N), (accept_move g k).board j ≠ EMPTY then TIE
      else RUNNING := by
  have h := game_over_condition_state (place_mark g k) ((place_mark_state g k).trans hs)
  rw [accept_move, game_over_condition_board]
  exact h

theorem read_update (b : Board) (k : Fin (N * N)) (v : Player) (i : Int)
    (hi : i ≠ ((k : Nat) : Int)) : Board.read (Function.update b k v) i = b.read i := by
  unfold Board.read
  cases e : board_index i with
  | none => rfl
  | some j =>
    have hj : j ≠ k := by
      intro ejk
      apply hi
      rw [← board_index_some e, ejk]
    rw [Option.map_some', Option.map_some', Function.update_noteq hj]

/-- C3, counterexample: with X,X,-,O,O,-,-,-,- on the board, `PLAYER_X` to
move and state `RUNNING`, the click on the `EMPTY` cell (0,2) is accepted and
gives state `PLAYER_X_WON` with current player `PLAYER_O`: the current player
is not left at the value it had before the move. -/
theorem winning_move_flips_player :
    (game_of PLAYER_X PLAYER_X EMPTY PLAYER_O PLAYER_O EMPTY EMPTY EMPTY EMPTY
        PLAYER_X RUNNING).state = RUNNING ∧
    (game_of PLAYER_X PLAYER_X EMPTY PLAYER_O PLAYER_O EMPTY EMPTY EMPTY EMPTY
        PLAYER_X RUNNING).player = PLAYER_X ∧
    accepted (game_of PLAYER_X PLAYER_X EMPTY PLAYER_O PLAYER_O EMPTY EMPTY EMPTY EMPTY
        PLAYER_X RUNNING) (cell_click 0 2).1 (cell_click 0 2).2 ∧
    (mouse_button_down (game_of PLAYER_X PLAYER_X EMPTY PLAYER_O PLAYER_O EMPTY EMPTY EMPTY EMPTY
        PLAYER_X RUNNING) (cell_click 0 2).1 (cell_click 0 2).2).map Game.view =
      some ([PLAYER_X, PLAYER_X, PLAYER_X, PLAYER_O, PLAYER_O, EMPTY, EMPTY, EMPTY, EMPTY],
        PLAYER_O, PLAYER_X_WON) ∧
    ¬ ∃ g1, mouse_button_down (game_of PLAYER_X PLAYER_X EMPTY PLAYER_O PLAYER_O EMPTY EMPTY EMPTY
          EMPTY PLAYER_X RUNNING) (cell_click 0 2).1 (cell_click 0 2).2 = some g1 ∧
        (game_over g1.state → g1.player = (game_of PLAYER_X PLAYER_X EMPTY PLAYER_O PLAYER_O EMPTY
          EMPTY EMPTY EMPTY PLAYER_X RUNNING).player) := by
  refine ⟨by decide, by decide, by decide, by decide, ?_⟩
  rintro ⟨g1, h1, h2⟩
  have e : mouse_button_down (game_of PLAYER_X PLAYER_X EMPTY PLAYER_O PLAYER_O EMPTY EMPTY EMPTY
      EMPTY PLAYER_X RUNNING) (cell_click 0 2).1 (cell_click 0 2).2 =
      some (accept_move (game_of PLAYER_X PLAYER_X EMPTY PLAYER_O PLAYER_O EMPTY EMPTY EMPTY
        EMPTY PLAYER_X RUNNING) 2) := rfl
  rw [e, Option.some.injEq] at h1
  subst h1
  revert h2
  decide

/-- C3 (amended): in every game with state `RUNNING` and current player
`PLAYER_X` or `PLAYER_O`, a click mapped to a cell of the grid that is `EMPTY`
sets that cell to the current player's mark and leaves every other cell
unchanged, and the current player is flipped (X to O, O to X) whatever the
resulting state is, also when it is `PLAYER_X_WON`, `PLAYER_O_WON` or `TIE`. -/
theorem effect_of_accepted_move (g : Game) (x y : Int)
    (hp : g.player = PLAYER_X ∨ g.player = PLAYER_O) (ha : accepted g x y) :
    ∃ g1, mouse_button_down g x y = some g1 ∧
      g1.board.read (cell_index (click_row y) (click_column x)) = some g.player ∧
      (∀ i : Int, i ≠ cell_index (click_row y) (click_column x) →
        g1.board.read i = g.board.read i) ∧
      (g.player = PLAYER_X → g1.player = PLAYER_O) ∧
      (g.player = PLAYER_O → g1.player = PLAYER_X) ∧
      g1.player ≠ g.player := by
  obtain ⟨k, hk, _, hm⟩ := mouse_button_down_accepted g x y ha
  have hidx := board_index_some hk
  refine ⟨accept_move g k, hm, ?_, ?_, ?_, ?_, ?_⟩
  · rw [read_eq_some hk, accept_move_board, Function.update_same]
  · intro i hi
    rw [accept_move_board]
    exact read_update g.board k g.player i (by rw [hidx]; exact hi)
  · intro h
    rw [accept_move_player, switch_player, h]
  · intro h
    rw [accept_move_player, switch_player, h]
  · rw [accept_move_player, switch_player]
    rcases hp with h | h <;> rw [h] <;> simp

/-- C3, witness: the winning move of X at cell (0,2). -/
theorem effect_of_accepted_move_witness :
    ((game_of PLAYER_X PLAYER_X EMPTY PLAYER_O PLAYER_O EMPTY EMPTY EMPTY EMPTY
        PLAYER_X RUNNING).player = PLAYER_X ∨
      (game_of PLAYER_X PLAYER_X EMPTY PLAYER_O PLAYER_O EMPTY EMPTY EMPTY EMPTY
        PLAYER_X RUNNING).player = PLAYER_O) ∧
    accepted (game_of PLAYER_X PLAYER_X EMPTY PLAYER_O PLAYER_O EMPTY EMPTY EMPTY EMPTY
        PLAYER_X RUNNING) 700 100 ∧
    ∃ g1, mouse_button_down (game_of PLAYER_X PLAYER_X EMPTY PLAYER_O PLAYER_O EMPTY EMPTY EMPTY
        EMPTY PLAYER_X RUNNING) 700 100 = some g1 ∧
      g1.board.read (cell_index (click_row 100) (click_column 700)) =
        some (game_of PLAYER_X PLAYER_X EMPTY PLAYER_O PLAYER_O EMPTY EMPTY EMPTY EMPTY
          PLAYER_X RUNNING).player ∧
      (∀ i : Int, i ≠ cell_index (click_row 100) (click_column 700) →
        g1.board.read i = (game_of PLAYER_X PLAYER_X EMPTY PLAYER_O PLAYER_O EMPTY EMPTY EMPTY
          EMPTY PLAYER_X RUNNING).board.read i) ∧
      ((game_of PLAYER_X PLAYER_X EMPTY PLAYER_O PLAYER_O EMPTY EMPTY EMPTY EMPTY
          PLAYER_X RUNNING).player = PLAYER_X → g1.player = PLAYER_O) ∧
      ((game_of PLAYER_X PLAYER_X EMPTY PLAYER_O PLAYER_O EMPTY EMPTY EMPTY EMPTY
          PLAYER_X RUNNING).player = PLAYER_O → g1.player = PLAYER_X) ∧
      g1.player ≠ (game_of PLAYER_X PLAYER_X EMPTY PLAYER_O PLAYER_O EMPTY EMPTY EMPTY EMPTY
          PLAYER_X RUNNING).player :=
  ⟨by decide, by decide, effect_of_accepted_move _ 700 100 (by decide) (by decide)⟩

/-! ## Sequences of accepted moves from the initial state -/

theorem move_invariant_initial : move_invariant 0 initial_game := by
  refine ⟨?_, ?_, ?_, ?_⟩ <;> decide

theorem move_invariant_step (k : Nat) (g g1 : Game) (x y : Int) (hi : move_invariant k g)
    (ha : accepted g x y) (hm : mouse_button_down g x y = some g1) :
    move_invariant (k + 1) g1 := by
  obtain ⟨j, _, he, hm2⟩ := mouse_button_down_accepted g x y ha
  rw [hm2, Option.some.injEq] at hm
  subst hm
  obtain ⟨hx, ho, hz, hp⟩ := hi
  have ux := count_cells_update g.board j g.player PLAYER_X
  have uo := count_cells_update g.board j g.player PLAYER_O
  have uz := count_cells_update g.board j g.player EMPTY
  rw [he] at ux uo uz
  unfold move_invariant
  rw [accept_move_board, accept_move_player, switch_player]
  rcases Nat.mod_two_eq_zero_or_one k with hk | hk
  · rw [hk] at hp
    simp only [if_true] at hp
    rw [hp] at ux uo uz ⊢
    simp only [reduceCtorEq, if_false, if_true] at ux uo uz
    have h1 : (k + 1) % 2 = 1 := by omega
    simp only [h1]
    refine ⟨by omega, by omega, by omega, by simp⟩
  · rw [hk] at hp
    simp only [one_ne_zero, if_false] at hp
    rw [hp] at ux uo uz ⊢
    simp only [reduceCtorEq, if_false, if_true] at ux uo uz
    have h1 : (k + 1) % 2 = 0 := by omega
    simp only [h1]
    refine ⟨by omega, by omega, by omega, by simp⟩

theorem accepted_moves_invariant (clicks : List (Int × Int)) :
    ∀ (k : Nat) (g g1 : Game), move_invariant k g → accepted_moves g clicks = some g1 →
      move_invariant (k + clicks.length) g1 := by
  induction clicks with
  | nil =>
    intro k g g1 hi h
    rw [accepted_moves, Option.some.injEq] at h
    subst h
    exact hi
  | cons c rest ih =>
    intro k g g1 hi h
    obtain ⟨x, y⟩ := c
    rw [accepted_moves] at h
    by_cases ha : accepted g x y
    · rw [if_pos ha] at h
      cases hm : mouse_button_down g x y with
      | none => rw [hm] at h; simp at h
      | some g2 =>
        rw [hm, Option.some_bind] at h
        have := ih (k + 1) g2 g1 (move_invariant_step k g g2 x y hi ha hm) h
        rw [List.length_cons]
        rw [show k + (rest.length + 1) = k + 1 + rest.length by omega]
        exact this
    · rw [if_neg ha] at h
      simp at h

theorem card_non_empty (b : Board) :
    (Finset.univ.filter (fun j : Fin (N * N) => b j ≠ EMPTY)).card + count_cells b EMPTY
      = N * N := by
  rw [count_cells_eq_sum, ← Finset.card_filter, add_comm,
    Finset.filter_card_add_filter_neg_card_eq_card]
  simp

/-- C6: for every sequence of accepted moves applied from the initial state
(empty board, `PLAYER_X`, `RUNNING`), after `k` accepted moves the number of
non-`EMPTY` cells on the board equals `k`, and whenever the state is still
`RUNNING` the current player is `PLAYER_X` if `k` is even and `PLAYER_O` if
`k` is odd. -/
theorem accepted_moves_count_and_turn (clicks : List (Int × Int)) (g : Game)
    (h : accepted_moves initial_game clicks = some g) :
    (Finset.univ.filter (fun j : Fin (N * N) => g.board j ≠ EMPTY)).card = clicks.length ∧
    count_cells g.board PLAYER_X + count_cells g.board PLAYER_O = clicks.length ∧
    count_cells g.board EMPTY = N * N - clicks.length ∧
    (g.state = RUNNING →
      g.player = if clicks.length % 2 = 0 then PLAYER_X else PLAYER_O) := by
  have hi := accepted_moves_invariant clicks 0 initial_game g move_invariant_initial h
  rw [Nat.zero_add] at hi
  obtain ⟨hx, ho, hz, hp⟩ := hi
  have hc := card_non_empty g.board
  refine ⟨by omega, by omega, by omega, fun _ => hp⟩

/-- C6, witness: after the three accepted moves (0,0), (1,1), (0,1) the board
holds three marks and `PLAYER_O` is to move. -/
theorem accepted_moves_count_and_turn_witness :
    accepted_moves initial_game [cell_click 0 0, cell_click 1 1, cell_click 0 1] =
      some (game_of PLAYER_X PLAYER_X EMPTY EMPTY PLAYER_O EMPTY EMPTY EMPTY EMPTY
        PLAYER_O RUNNING) ∧
    (Finset.univ.filter (fun j : Fin (N * N) =>
      (game_of PLAYER_X PLAYER_X EMPTY EMPTY PLAYER_O EMPTY EMPTY EMPTY EMPTY
        PLAYER_O RUNNING).board j ≠ EMPTY)).card = 3 ∧
    (game_of PLAYER_X PLAYER_X EMPTY EMPTY PLAYER_O EMPTY EMPTY EMPTY EMPTY
        PLAYER_O RUNNING).player = PLAYER_O :=
  have h := accepted_moves_count_and_turn [cell_click 0 0, cell_click 1 1, cell_click 0 1]
    (game_of PLAYER_X PLAYER_X EMPTY EMPTY PLAYER_O EMPTY EMPTY EMPTY EMPTY PLAYER_O RUNNING)
    (eq_some_of_view (by decide))
  ⟨eq_some_of_view (by decide), h.1, h.2.2.2 (by decide)⟩

/-- C8, counterexample: no sequence of nine accepted moves from the initial
state gives the board X,O,X,O,X,O,O,X,O: `PLAYER_X` moves first, so nine
accepted moves leave five `PLAYER_X` marks, and that board holds four. -/
theorem tie_pattern_unreachable :
    ¬ ∃ (clicks : List (Int × Int)) (g : Game), clicks.length = 9 ∧
        accepted_moves initial_game clicks = some g ∧
        g.board = ![PLAYER_X, PLAYER_O, PLAYER_X, PLAYER_O, PLAYER_X, PLAYER_O,
          PLAYER_O, PLAYER_X, PLAYER_O] := by
  rintro ⟨clicks, g, hl, hm, hb⟩
  have hi := accepted_moves_invariant clicks 0 initial_game g move_invariant_initial hm
  rw [Nat.zero_add, hl] at hi
  have hx := hi.1
  rw [hb] at hx
  revert hx
  decide

/-- C8 (amended): starting from the initial state (empty board, `PLAYER_X` to
move, `RUNNING`) there is a sequence of nine accepted moves after which the
board, read row-major, is O,X,O,X,O,X,X,O,X; that board has no row, column or
diagonal fully owned by one mark, the state is `RUNNING` after each of the
first eight moves, and it is `TIE` after the ninth. -/
theorem tie_after_nine_moves :
    ∃ clicks : List (Int × Int), clicks.length = 9 ∧
      (accepted_moves initial_game clicks).map Game.view =
        some ([PLAYER_O, PLAYER_X, PLAYER_O, PLAYER_X, PLAYER_O, PLAYER_X,
          PLAYER_X, PLAYER_O, PLAYER_X], PLAYER_O, TIE) ∧
      ¬ owns_line ![PLAYER_O, PLAYER_X, PLAYER_O, PLAYER_X, PLAYER_O, PLAYER_X,
          PLAYER_X, PLAYER_O, PLAYER_X] PLAYER_X ∧
      ¬ owns_line ![PLAYER_O, PLAYER_X, PLAYER_O, PLAYER_X, PLAYER_O, PLAYER_X,
          PLAYER_X, PLAYER_O, PLAYER_X] PLAYER_O ∧
      ∀ n, n < 9 →
        (accepted_moves initial_game (clicks.take n)).map Game.state = some RUNNING :=
  ⟨tie_clicks, by decide, by decide, by decide, by decide, by decide⟩

/-! ## Reachable states: no double win -/

theorem owns_line_mono {b c : Board} {q : Player}
    (h : ∀ i, c.cell i = q → b.cell i = q) (hc : owns_line c q) : owns_line b q := by
  rcases hc with ⟨i, hi, hr⟩ | ⟨i, hi, hr⟩ | hr | hr
  · exact Or.inl ⟨i, hi, fun j hj => h _ (hr j hj)⟩
  · exact Or.inr (Or.inl ⟨i, hi, fun j hj => h _ (hr j hj)⟩)
  · exact Or.inr (Or.inr (Or.inl (fun i hi => h _ (hr i hi))))
  · exact Or.inr (Or.inr (Or.inr (fun i hi => h _ (hr i hi))))

theorem cell_update_of_ne (b : Board) (k : Fin (N * N)) (p q : Player) (hq : q ≠ p) (i : Nat)
    (h : Board.cell (Function.update b k p) i = q) : b.cell i = q := by
  unfold Board.cell at h ⊢
  split
  · next hi =>
    rw [dif_pos hi] at h
    by_cases e : (⟨i, hi⟩ : Fin (N * N)) = k
    · rw [e, Function.update_same] at h
      exact absurd h.symm hq
    · rwa [Function.update_noteq e] at h
  · next hi =>
    rwa [dif_neg hi] at h

theorem reach_invariant_initial : reach_invariant initial_game := by
  refine ⟨Or.inl rfl, fun _ => ⟨by decide, by decide⟩, by decide⟩

theorem switch_player_mark (g : Game) (h : g.player = PLAYER_X ∨ g.player = PLAYER_O) :
    (switch_player g).player = PLAYER_X ∨ (switch_player g).player = PLAYER_O := by
  unfold switch_player
  rcases h with h | h <;> rw [h] <;> simp

theorem other_owns_no_line (g : Game) (k : Fin (N * N)) (q : Player) (hi : reach_invariant g)
    (hs : g.state = RUNNING) (hq : q = PLAYER_X ∨ q = PLAYER_O) (hne : q ≠ g.player) :
    ¬ owns_line (Function.update g.board k g.player) q := by
  intro h
  have h2 : owns_line g.board q := owns_line_mono (cell_update_of_ne g.board k g.player q hne) h
  rcases hq with e | e
  · rw [e] at h2
    exact (hi.2.1 hs).1 h2
  · rw [e] at h2
    exact (hi.2.1 hs).2 h2

theorem reach_invariant_accept (g : Game) (k : Fin (N * N)) (hi : reach_invariant g)
    (hs : g.state = RUNNING) : reach_invariant (accept_move g k) := by
  have hst := accept_move_state g k hs
  refine ⟨?_, ?_, ?_⟩
  · rw [accept_move_player]
    exact switch_player_mark g hi.1
  · intro hr
    rw [hr] at hst
    by_cases h1 : owns_line (accept_move g k).board PLAYER_X
    · rw [if_pos h1] at hst
      exact absurd hst (by decide)
    · by_cases h2 : owns_line (accept_move g k).board PLAYER_O
      · rw [if_neg h1, if_pos h2] at hst
        exact absurd hst (by decide)
      · exact ⟨h1, h2⟩
  · rw [accept_move_board]
    rintro ⟨hx, ho⟩
    rcases hi.1 with hp | hp
    · exact other_owns_no_line g k PLAYER_O hi hs (Or.inr rfl) (by rw [hp]; decide) ho
    · exact other_owns_no_line g k PLAYER_X hi hs (Or.inl rfl) (by rw [hp]; decide) hx

theorem reach_invariant_click (g g1 : Game) (x y : Int) (hi : reach_invariant g)
    (hm : mouse_button_down g x y = some g1) : reach_invariant g1 := by
  by_cases hs : g.state = RUNNING
  · unfold mouse_button_down at hm
    rw [if_pos hs] at hm
    simp only [] at hm
    cases hk : board_index (cell_index (click_row y) (click_column x)) with
    | none => rw [hk] at hm; simp at hm
    | some k =>
      rw [hk] at hm
      simp only [] at hm
      by_cases he : g.board k = EMPTY
      · rw [if_pos he, Option.some.injEq] at hm
        rw [← hm]
        exact reach_invariant_accept g k hi hs
      · rw [if_neg he, Option.some.injEq] at hm
        rw [← hm]
        exact hi
  · rw [mouse_button_down_not_running g x y hs, Option.some.injEq] at hm
    rw [← hm]
    exact reach_invariant_initial

theorem reachable_invariant (g : Game) (h : Reachable g) : reach_invariant g := by
  induction h with
  | init => exact reach_invariant_initial
  | click g g1 x y _ _ hm ih => exact reach_invariant_click g g1 x y ih hm

theorem mover_only_agrees (g : Game) (k : Fin (N * N)) (hi : reach_invariant g)
    (hs : g.state = RUNNING) :
    game_over_condition (place_mark g k) = game_over_condition_mover (place_mark g k) g.player := by
  have hb := place_mark_board g k
  unfold game_over_condition game_over_condition_mover
  rcases hi.1 with hp | hp
  · have hno : ¬ owns_line (place_mark g k).board PLAYER_O := by
      rw [hb]
      exact other_owns_no_line g k PLAYER_O hi hs (Or.inr rfl) (by rw [hp]; decide)
    rw [hp, check_player_won_eq_false hno]
    simp [won_state]
  · have hno : ¬ owns_line (place_mark g k).board PLAYER_X := by
      rw [hb]
      exact other_owns_no_line g k PLAYER_X hi hs (Or.inl rfl) (by rw [hp]; decide)
    rw [hp, check_player_won_eq_false hno]
    simp [won_state]

theorem before_win_game_reachable : Reachable before_win_game :=
  have r1 : Reachable (accept_move initial_game 0) :=
    Reachable.click initial_game _ 100 100 Reachable.init (by decide) rfl
  have r2 : Reachable (accept_move (accept_move initial_game 0) 4) :=
    Reachable.click _ _ 400 300 r1 (by decide) rfl
  have r3 : Reachable (accept_move (accept_move (accept_move initial_game 0) 4) 1) :=
    Reachable.click _ _ 400 100 r2 (by decide) rfl
  Reachable.click _ _ 100 300 r3 (by decide) rfl

/-- C5: for every `RUNNING` game (any board of `N * N` cells) and every click
mapped to an `EMPTY` cell of the grid, the state after the accepted move is
determined by the new board alone: `PLAYER_X_WON` if some row, some column,
the main diagonal or the anti-diagonal consists entirely of `PLAYER_X`;
otherwise `PLAYER_O_WON` if one of those lines consists entirely of
`PLAYER_O`; otherwise `TIE` if no cell is `EMPTY`; otherwise `RUNNING`.  In
particular, in every game the program can hold (reachable from the initial
state), a line completed with one mark yields that mark's win, for `PLAYER_X`
and for `PLAYER_O` alike; and `TIE` is produced exactly when the move fills
the last `EMPTY` cell and no line is fully owned by one mark. -/
theorem state_after_accepted_move (g : Game) (x y : Int) (ha : accepted g x y) :
    ∃ g1, mouse_button_down g x y = some g1 ∧
      (g1.state =
        if owns_line g1.board PLAYER_X then PLAYER_X_WON
        else if owns_line g1.board PLAYER_O then PLAYER_O_WON
        else if ∀ j : Fin (N * N), g1.board j ≠ EMPTY then TIE
        else RUNNING) ∧
      (owns_line g1.board PLAYER_X → g1.state = PLAYER_X_WON) ∧
      (owns_line g1.board PLAYER_O → ¬ owns_line g1.board PLAYER_X →
        g1.state = PLAYER_O_WON) ∧
      (Reachable g → owns_line g1.board PLAYER_O → g1.state = PLAYER_O_WON) ∧
      (Reachable g → owns_line g1.board g.player → g1.state = won_state g.player g1.state) ∧
      (g1.state = TIE ↔
        (∀ j : Fin (N * N), g1.board j ≠ EMPTY) ∧
          ¬ owns_line g1.board PLAYER_X ∧ ¬ owns_line g1.board PLAYER_O) ∧
      ((∀ j : Fin (N * N), g1.board j ≠ EMPTY) ↔
        g.player ≠ EMPTY ∧
          ∀ j : Fin (N * N), ((j : Nat) : Int) ≠ cell_index (click_row y) (click_column x) →
            g.board j ≠ EMPTY) := by
  obtain ⟨k, hk, _, hm⟩ := mouse_button_down_accepted g x y ha
  have hidx := board_index_some hk
  have hst := accept_move_state g k ha.1
  have hxw : owns_line (accept_move g k).board PLAYER_X →
      (accept_move g k).state = PLAYER_X_WON := by
    intro h
    rw [hst, if_pos h]
  have how : Reachable g → owns_line (accept_move g k).board PLAYER_O →
      (accept_move g k).state = PLAYER_O_WON := by
    intro hr h1
    have hinv := reach_invariant_accept g k (reachable_invariant g hr) ha.1
    have h2 : ¬ owns_line (accept_move g k).board PLAYER_X := fun hx => hinv.2.2 ⟨hx, h1⟩
    rw [hst, if_neg h2, if_pos h1]
  refine ⟨accept_move g k, hm, hst, hxw, ?_, how, ?_, ?_, ?_⟩
  · intro h1 h2
    rw [hst, if_neg h2, if_pos h1]
  · intro hr hl
    rcases (reachable_invariant g hr).1 with hp | hp
    · rw [hp] at hl ⊢
      exact hxw hl
    · rw [hp] at hl ⊢
      exact how hr hl
  · by_cases h1 : owns_line (accept_move g k).board PLAYER_X
    · rw [hst, if_pos h1]
      simp [h1]
    · by_cases h2 : owns_line (accept_move g k).board PLAYER_O
      · rw [hst, if_neg h1, if_pos h2]
        simp [h2]
      · by_cases h3 : ∀ j : Fin (N * N), (accept_move g k).board j ≠ EMPTY
        · rw [hst, if_neg h1, if_neg h2, if_pos h3]
          simp [h1, h2, h3]
        · rw [hst, if_neg h1, if_neg h2, if_neg h3]
          simp [h3]
  · rw [accept_move_board]
    constructor
    · intro h
      refine ⟨?_, fun j hj => ?_⟩
      · have := h k
        rwa [Function.update_same] at this
      · have hjk : j ≠ k := fun e => hj (by rw [e, hidx])
        have := h j
        rwa [Function.update_noteq hjk] at this
    · rintro ⟨h1, h2⟩ j
      by_cases hjk : j = k
      · rw [hjk, Function.update_same]
        exact h1
      · rw [Function.update_noteq hjk]
        exact h2 j (fun e => hjk (Fin.ext (by rw [← hidx] at e; exact_mod_cast e)))

/-- C5, witness: in the game reached by the four moves (0,0), (1,1), (0,1),
(1,0), the move of X at (0,2) completes row 0. -/
theorem state_after_accepted_move_witness :
    Reachable before_win_game ∧ accepted before_win_game 700 100 ∧
    ∃ g1, mouse_button_down before_win_game 700 100 = some g1 ∧
      (g1.state =
        if owns_line g1.board PLAYER_X then PLAYER_X_WON
        else if owns_line g1.board PLAYER_O then PLAYER_O_WON
        else if ∀ j : Fin (N * N), g1.board j ≠ EMPTY then TIE
        else RUNNING) ∧
      (owns_line g1.board PLAYER_X → g1.state = PLAYER_X_WON) ∧
      (owns_line g1.board PLAYER_O → ¬ owns_line g1.board PLAYER_X →
        g1.state = PLAYER_O_WON) ∧
      (Reachable before_win_game → owns_line g1.board PLAYER_O → g1.state = PLAYER_O_WON) ∧
      (Reachable before_win_game → owns_line g1.board before_win_game.player →
        g1.state = won_state before_win_game.player g1.state) ∧
      (g1.state = TIE ↔
        (∀ j : Fin (N * N), g1.board j ≠ EMPTY) ∧
          ¬ owns_line g1.board PLAYER_X ∧ ¬ owns_line g1.board PLAYER_O) ∧
      ((∀ j : Fin (N * N), g1.board j ≠ EMPTY) ↔
        before_win_game.player ≠ EMPTY ∧
          ∀ j : Fin (N * N), ((j : Nat) : Int) ≠ cell_index (click_row 100) (click_column 700) →
            before_win_game.board j ≠ EMPTY) :=
  ⟨before_win_game_reachable, by decide, state_after_accepted_move _ 700 100 (by decide)⟩

/-- C10: in every game reachable from the initial state by mouse clicks mapped
to cells of the grid (accepted moves, rejected moves and resets),
`check_player_won` is never true for both `PLAYER_X` and `PLAYER_O`; and on
every accepted move from such a game, evaluating only the win of the player
who just placed the mark gives the same result as `game_over_condition`, which
evaluates `PLAYER_X` first and then `PLAYER_O`. -/
theorem reachable_no_double_win (g : Game) (h : Reachable g) :
    ¬ (check_player_won g PLAYER_X = true ∧ check_player_won g PLAYER_O = true) ∧
    ∀ x y : Int, accepted g x y →
      ∃ k : Fin (N * N), board_index (cell_index (click_row y) (click_column x)) = some k ∧
        mouse_button_down g x y = some (game_over_condition (place_mark g k)) ∧
        game_over_condition (place_mark g k) =
          game_over_condition_mover (place_mark g k) g.player := by
  have hi := reachable_invariant g h
  refine ⟨?_, ?_⟩
  · rintro ⟨hx, ho⟩
    exact hi.2.2 ⟨(won_iff_owns_line g PLAYER_X).mp hx, (won_iff_owns_line g PLAYER_O).mp ho⟩
  · intro x y ha
    obtain ⟨k, hk, _, hm⟩ := mouse_button_down_accepted g x y ha
    exact ⟨k, hk, hm, mover_only_agrees g k hi ha.1⟩

/-- C10, witness: the game before the winning move of X at (0,2) is reachable
by the four moves (0,0), (1,1), (0,1), (1,0); no player has won there, and on
the accepted move at (0,2) the evaluation of the mover alone agrees with
`game_over_condition`. -/
theorem reachable_no_double_win_witness :
    Reachable before_win_game ∧
    ¬ (check_player_won before_win_game PLAYER_X = true ∧
        check_player_won before_win_game PLAYER_O = true) ∧
    accepted before_win_game 700 100 ∧
    ∃ k : Fin (N * N), board_index (cell_index (click_row 100) (click_column 700)) = some k ∧
      mouse_button_down before_win_game 700 100 =
        some (game_over_condition (place_mark before_win_game k)) ∧
      game_over_condition (place_mark before_win_game k) =
        game_over_condition_mover (place_mark before_win_game k) before_win_game.player :=
  have r4 : Reachable before_win_game := before_win_game_reachable
  ⟨r4, (reachable_no_double_win before_win_game r4).1, by decide,
    (reachable_no_double_win before_win_game r4).2 700 100 (by decide)⟩

end TicTacToe
